import Mathlib

/-!
Shallow embedding of the `gostata` Stata-113 file writer (src/stata.go and
the tag/extraction unit) and proofs about it.

Modelling conventions:
* Go strings and byte slices are modelled as `List Nat`, one entry per byte
  (every concrete string in the repository is ASCII).
* Go `byte` values are `Nat` (always < 256 on the code's own paths);
  Go `int8`/`int16`/`int32` values are `Int`, truncated with `% 2^w`
  exactly where the code converts them to bytes.
* Go `float32`/`float64` slice elements are modelled by their IEEE-754 bit
  patterns (`Nat`), since the encoder only ever reinterprets their raw
  little-endian bytes (`unsafe.Pointer` casts on a little-endian host).
* Functions that can `panic` in Go are modelled with `Option`/error results;
  fallible functions return a `GoErr` mirroring each `fmt.Errorf`/`errors.New`
  site of the source.
* The output file created by `BeginWrite`/`EndWrite` is a byte list `sink`
  together with a write position `pos`; a write overwrites in place and
  extends at the end, exactly like a seekable file.
-/

namespace GoStata

/-- Go string modelled as its byte sequence. -/
abbrev GoStr := List Nat

/-- Stata type code for `byte` (src/stata.go `StataByteId = 251`). -/
def StataByteId : Nat := 251

/-- Stata type code for `int` (252). -/
def StataIntId : Nat := 252

/-- Stata type code for `long` (253). -/
def StataLongId : Nat := 253

/-- Stata type code for `float` (254). -/
def StataFloatId : Nat := 254

/-- Stata type code for `double` (255). -/
def StataDoubleId : Nat := 255

/-- Every error value produced by the modelled code, one constructor per
`fmt.Errorf` / `errors.New` / `panic` site. -/
inductive GoErr where
  | noFields                                     -- writeData: "No fields"
  | unsupportedFieldType (typ : Nat) (field : GoStr) -- writeData default branch
  | panicIndexOutOfRange                         -- Go slice-index panic
  | panicTypeAssertion                           -- Go interface type-assertion panic
  | invalidStringType (typ : GoStr)              -- convertTyp: Atoi failure
  | stringTypeOutOfRange (typ : GoStr)           -- convertTyp: N outside [1,244]
  | unknownType (typ : GoStr)                    -- convertTyp default branch
  | stringNeedsTyp                               -- goTypeToStataType on String
  | unsupportedGoType                            -- goTypeToStataType default branch
  | noFieldsFound                                -- ExtractFields: zero fields
  | fieldErr (name : GoStr) (e : GoErr)          -- ExtractFields: "field %s: %v"
  deriving DecidableEq, Repr

/-- Backing data of a field (`Field.data`, an `interface{}` in Go). Float and
double slices hold IEEE bit patterns. -/
inductive FieldData where
  | none
  | bytes   (xs : List Int)
  | ints    (xs : List Int)
  | longs   (xs : List Int)
  | floats  (xs : List Nat)
  | doubles (xs : List Nat)
  deriving DecidableEq, Repr

/-- A column descriptor (`Field` in the source). -/
structure Field where
  Name      : GoStr
  FieldType : Nat
  Label     : GoStr
  Format    : GoStr
  data      : FieldData := .none
  deriving DecidableEq, Repr

/-- The bytes of the ASCII string "str". -/
def strTypLit : GoStr := [115, 116, 114]

/-- The bytes of "byte". -/
def byteLit : GoStr := [98, 121, 116, 101]

/-- The bytes of "int". -/
def intLit : GoStr := [105, 110, 116]

/-- The bytes of "long". -/
def longLit : GoStr := [108, 111, 110, 103]

/-- The bytes of "float". -/
def floatLit : GoStr := [102, 108, 111, 97, 116]

/-- The bytes of "double". -/
def doubleLit : GoStr := [100, 111, 117, 98, 108, 101]

/-- The bytes of the default display format "%9.0g". -/
def fmt9gLit : GoStr := [37, 57, 46, 48, 103]

/-- The bytes of the tag key "name". -/
def nameKey : GoStr := [110, 97, 109, 101]

/-- The bytes of the tag key "label". -/
def labelKey : GoStr := [108, 97, 98, 101, 108]

/-- The bytes of the tag key "typ". -/
def typKey : GoStr := [116, 121, 112]

/-- The bytes of the tag key "format". -/
def formatKey : GoStr := [102, 111, 114, 109, 97, 116]

/-- The bytes of the dataset label "Written by VDEC Stata File Creator"
hard-coded by `NewHeader`. -/
def vdecLabel : GoStr :=
  [87, 114, 105, 116, 116, 101, 110, 32, 98, 121, 32, 86, 68, 69, 67, 32,
   83, 116, 97, 116, 97, 32, 70, 105, 108, 101, 32, 67, 114, 101, 97, 116,
   111, 114]

/-- Is `c` an ASCII decimal digit byte? -/
def isDigitB (c : Nat) : Bool := 48 ≤ c && c ≤ 57

/-- Value of a digit list, most significant first (the accumulator loop of
`strconv.Atoi` restricted to digits). -/
def digitsVal (s : GoStr) : Nat := s.foldl (fun a c => a * 10 + (c - 48)) 0

/-- Parse a non-empty all-digit byte list. -/
def parseDigits (s : GoStr) : Option Nat :=
  if s = [] then Option.none
  else if s.all isDigitB then Option.some (digitsVal s) else Option.none

/-- Model of Go `strconv.Atoi`: optional sign, then a non-empty digit run.
Machine-int overflow of `Atoi` is not modelled; every use below bounds the
result by 244 before it is used, and an overflowing input is an error both in
Go and (via the range check) here. -/
def goAtoi (s : GoStr) : Option Int :=
  match s with
  | 45 :: rest => (parseDigits rest).map (fun n => -(n : Int))
  | 43 :: rest => (parseDigits rest).map (fun n => (n : Int))
  | _ => (parseDigits s).map (fun n => (n : Int))

/-- Model of `convertTyp` (tag unit, lines 40-66): `strN` maps to the byte
`N` after a [1,244] range check; the five numeric kind names map to their
sentinel codes; anything else is an error. -/
def convertTyp (typStr : GoStr) : Except GoErr Nat :=
  if typStr.take 3 = strTypLit then
    match goAtoi (typStr.drop 3) with
    | Option.none => .error (.invalidStringType typStr)
    | Option.some n =>
      if n < 1 ∨ n > 244 then .error (.stringTypeOutOfRange typStr)
      else .ok n.toNat
  else if typStr = byteLit then .ok 251
  else if typStr = intLit then .ok 252
  else if typStr = longLit then .ok 253
  else if typStr = floatLit then .ok 254
  else if typStr = doubleLit then .ok 255
  else .error (.unknownType typStr)

/-- Per-field byte width: the switch shared by `calcRecordSize`,
`AddFieldMeta` and `AddField` (1/2/4/4/8 for the numeric sentinels, the code
value itself for everything else, i.e. for string codes). -/
def fieldWidth (t : Nat) : Nat :=
  if t = StataByteId then 1
  else if t = StataIntId then 2
  else if t = StataLongId then 4
  else if t = StataFloatId then 4
  else if t = StataDoubleId then 8
  else t

/-- Model of `calcRecordSize` (tag unit, lines 153-172): fold the per-field
switch over the fields, starting from 0. -/
def calcRecordSize (fields : List Field) : Nat :=
  fields.foldl (fun acc f => acc + fieldWidth f.FieldType) 0

/-- The valid type codes per the spec invariant and the doc table of
`AddFieldMeta`: string codes [1,244] and the five numeric sentinels. -/
def validTypeCode (t : Nat) : Prop :=
  (1 ≤ t ∧ t ≤ 244) ∨ t = 251 ∨ t = 252 ∨ t = 253 ∨ t = 254 ∨ t = 255

instance (t : Nat) : Decidable (validTypeCode t) := by
  unfold validTypeCode; infer_instance

/-- File header (`header` struct; 109 bytes on disk). `NumVars` is a Go
`int16` and `NumObs` a Go `int32`, both modelled as `Int` and truncated at
the byte-encoding boundary. -/
structure Header where
  Version   : Nat := 113
  ByteOrder : Nat := 2
  FileType  : Nat := 1
  UnUsed    : Nat := 0
  NumVars   : Int := 0
  NumObs    : Int := 0
  DataLabel : GoStr := []
  TimeStamp : GoStr := []
  deriving DecidableEq, Repr

/-- Truncate-or-pad a byte string into a zeroed fixed-size slot of width `w`:
the effect of `copy(arr[:], s)` on a fresh `[w]byte` array. -/
def padTrunc (w : Nat) (s : GoStr) : GoStr :=
  s.take w ++ List.replicate (w - s.length) 0

/-- Model of `NewHeader`: version 113, byte order LOHI, the fixed dataset
label, and the current formatted time (passed in as `now`, since `time.Now()`
is an external input). -/
def NewHeader (now : GoStr) : Header :=
  { Version := 113, ByteOrder := 2, FileType := 1, UnUsed := 0,
    NumVars := 0, NumObs := 0,
    DataLabel := padTrunc 81 vdecLabel,
    TimeStamp := padTrunc 18 now }

/-- The writer state (`File` struct): header, fields, derived record size,
the incremental record buffer with its offset, and the output file modelled
as a byte list with a write position. -/
structure File where
  header     : Header
  fields     : List Field := []
  recordSize : Nat := 0
  recBuf     : List Nat := []
  offset     : Nat := 0
  sink       : List Nat := []
  pos        : Nat := 0
  deriving DecidableEq, Repr

/-- Model of `NewFile`. -/
def NewFile (now : GoStr) : File := { header := NewHeader now }

/-- UTF-8 encoding of a code point below 0x800: the effect of Go's
`string(typ)` conversion for a `byte` value `typ` (one byte below 0x80,
two bytes otherwise). -/
def utf8Enc (c : Nat) : List Nat :=
  if c < 128 then [c] else [192 + c / 64, 128 + c % 64]

/-- Model of `AddFieldMeta` (src/stata.go lines 209-240). The `default`
branch guards with `typ < 1 && typ > 244` — an unsatisfiable conjunction, so
the `panic` (modelled as `Option.none`) is dead code and every non-sentinel
code is stored as a string type of width `typ`, with format
`"%" + string(typ) + "s"`. -/
def AddFieldMeta (sf : File) (name label : GoStr) (typ : Nat) : Option File :=
  if typ = StataByteId ∨ typ = StataIntId ∨ typ = StataLongId ∨
     typ = StataFloatId ∨ typ = StataDoubleId then
    Option.some
      { sf with
        recordSize := sf.recordSize + fieldWidth typ,
        fields := sf.fields ++
          [{ Name := name, FieldType := typ, Label := label,
             Format := fmt9gLit, data := .none }],
        header := { sf.header with NumVars := sf.header.NumVars + 1 } }
  else if typ < 1 ∧ typ > 244 then
    Option.none -- the Go panic; unreachable
  else
    Option.some
      { sf with
        recordSize := sf.recordSize + typ,
        fields := sf.fields ++
          [{ Name := name, FieldType := typ, Label := label,
             Format := [37] ++ utf8Enc typ ++ [115], data := .none }],
        header := { sf.header with NumVars := sf.header.NumVars + 1 } }

/-- A data slice of one of the five supported Go element types, as passed to
`AddField` (any other slice type makes the Go code panic and is not
representable here). -/
inductive GoSlice where
  | bytes   (xs : List Int)
  | ints    (xs : List Int)
  | longs   (xs : List Int)
  | floats  (xs : List Nat)
  | doubles (xs : List Nat)
  deriving DecidableEq, Repr

/-- The Stata type code of a slice's element type. -/
def GoSlice.typId : GoSlice → Nat
  | .bytes _ => StataByteId
  | .ints _ => StataIntId
  | .longs _ => StataLongId
  | .floats _ => StataFloatId
  | .doubles _ => StataDoubleId

/-- The record-size increment of `AddField`'s switch for this slice type. -/
def GoSlice.inc : GoSlice → Nat
  | .bytes _ => 1
  | .ints _ => 2
  | .longs _ => 4
  | .floats _ => 4
  | .doubles _ => 8

/-- The slice's length. -/
def GoSlice.len : GoSlice → Nat
  | .bytes xs => xs.length
  | .ints xs => xs.length
  | .longs xs => xs.length
  | .floats xs => xs.length
  | .doubles xs => xs.length

/-- The slice stored as field data. -/
def GoSlice.toFieldData : GoSlice → FieldData
  | .bytes xs => .bytes xs
  | .ints xs => .ints xs
  | .longs xs => .longs xs
  | .floats xs => .floats xs
  | .doubles xs => .doubles xs

/-- Model of `AddField` (src/stata.go lines 147-207): pick the type code and
record-size increment from the slice's element type, append the field,
increment `NumVars`, and raise `NumObs` to the slice length if larger. -/
def AddField (sf : File) (name label : GoStr) (slice : GoSlice) : File :=
  { sf with
    recordSize := sf.recordSize + slice.inc,
    fields := sf.fields ++
      [{ Name := name, FieldType := slice.typId, Label := label,
         Format := fmt9gLit, data := slice.toFieldData }],
    header := { sf.header with
      NumVars := sf.header.NumVars + 1,
      NumObs := if (slice.len : Int) > sf.header.NumObs then (slice.len : Int)
                else sf.header.NumObs } }

/-- The Go `reflect.Kind` values distinguished by `goTypeToStataType`
(`int` and `bool` take the default branch, like any other kind). -/
inductive GoKind where
  | int8 | int16 | int32 | int64 | float32 | float64 | text | int | bool | other
  deriving DecidableEq, Repr

/-- Model of `goTypeToStataType` (tag unit, lines 69-86). -/
def goTypeToStataType : GoKind → Except GoErr GoStr
  | .int8 => .ok byteLit
  | .int16 => .ok intLit
  | .int32 => .ok longLit
  | .int64 => .ok longLit
  | .float32 => .ok floatLit
  | .float64 => .ok doubleLit
  | .text => .error .stringNeedsTyp
  | _ => .error .unsupportedGoType

/-- One struct attribute as seen through reflection: its Go name, its
`reflect.Kind`, its parsed `stata` tag (key/value pairs, unique keys), and
its value. -/
structure Attr where
  name  : GoStr
  kind  : GoKind
  tag   : List (GoStr × GoStr)
  value : FieldData := .none
  deriving DecidableEq, Repr

/-- Go map lookup returning the zero value `""` for a missing key
(`tagMap[key]`). -/
def tagGet (m : List (GoStr × GoStr)) (k : GoStr) : GoStr :=
  match m.find? (fun p => p.1 = k) with
  | Option.some p => p.2
  | Option.none => []

/-- ASCII lowercasing, the effect of `strings.ToLower` on ASCII bytes (every
identifier in the repository is ASCII; theorems that use this restrict the
input accordingly). -/
def toLowerAscii (s : GoStr) : GoStr :=
  s.map (fun c => if 65 ≤ c ∧ c ≤ 90 then c + 32 else c)

/-- Is every byte of `s` ASCII? -/
def isAsciiStr (s : GoStr) : Prop := ∀ c ∈ s, c < 128

instance (s : GoStr) : Decidable (isAsciiStr s) := by
  unfold isAsciiStr; infer_instance

/-- The loop body of `ExtractFields` (tag unit, lines 103-145) for one struct
attribute: resolve `name`, `label` and the type string (explicit `typ` tag if
present and non-empty, else inferred from the Go kind), convert the type
string, and build the field. Errors are wrapped with the attribute name as in
`fmt.Errorf("field %s: %v", ...)`. -/
def extractOneField (a : Attr) : Except GoErr Field :=
  let name := if tagGet a.tag nameKey = [] then toLowerAscii a.name
              else tagGet a.tag nameKey
  let label := if tagGet a.tag labelKey = [] then name else tagGet a.tag labelKey
  let typStrE : Except GoErr GoStr :=
    match a.tag.find? (fun p => p.1 = typKey) with
    | Option.some p => if p.2 ≠ [] then .ok p.2 else goTypeToStataType a.kind
    | Option.none => goTypeToStataType a.kind
  match typStrE with
  | .error e => .error (.fieldErr a.name e)
  | .ok typStr =>
    match convertTyp typStr with
    | .error e => .error (.fieldErr a.name e)
    | .ok fieldType =>
      .ok { Name := name, FieldType := fieldType, Label := label,
            Format := tagGet a.tag formatKey, data := a.value }

/-- The `for` loop of `ExtractFields`: process each attribute in order,
returning at the first error, else collecting the fields in order. -/
def extractLoop : List Attr → Except GoErr (List Field)
  | [] => .ok []
  | a :: rest =>
    match extractOneField a with
    | .error e => .error e
    | .ok fld =>
      match extractLoop rest with
      | .error e => .error e
      | .ok flds => .ok (fld :: flds)

/-- Model of `ExtractFields` (tag unit, lines 89-151), over the attribute
list of a struct value: run the extraction loop and reject an empty
result. -/
def ExtractFields (attrs : List Attr) : Except GoErr (List Field) :=
  match extractLoop attrs with
  | .error e => .error e
  | .ok fields => if fields = [] then .error .noFieldsFound else .ok fields

/-- Model of `NewFileFromStruct` (tag unit, lines 128-141): extract the
fields and compute `recordSize`; note that `header.NumVars` is left at the
`NewHeader` value 0. -/
def NewFileFromStruct (now : GoStr) (attrs : List Attr) : Except GoErr File :=
  match ExtractFields attrs with
  | .error e => .error e
  | .ok fields =>
    .ok { header := NewHeader now, fields := fields,
          recordSize := calcRecordSize fields }

/-! ### Byte-level encoders -/

/-- Little-endian encoding of `v` in `w` bytes (the layout produced by
`binary.Write` with `littleEndian`, and by the unsafe casts, for a
non-negative two's-complement representation). -/
def leBytes : Nat → Nat → List Nat
  | 0, _ => []
  | w + 1, v => v % 256 :: leBytes w (v / 256)

/-- Go `int16(n)` conversion for a non-negative `n` (`len` results):
truncate to 16 bits, signed. -/
def int16ofNat (n : Nat) : Int :=
  if n % 65536 < 32768 then ((n % 65536 : Nat) : Int)
  else ((n % 65536 : Nat) : Int) - 65536

/-- The 109 header bytes emitted by `binary.Write(w, littleEndian, header)`:
four single bytes, `NumVars` as little-endian `int16`, `NumObs` as
little-endian `int32`, then the two fixed-size text blocks. -/
def headerBytes (h : Header) : List Nat :=
  [h.Version, h.ByteOrder, h.FileType, h.UnUsed]
    ++ leBytes 2 (h.NumVars % 65536).toNat
    ++ leBytes 4 (h.NumObs % 4294967296).toNat
    ++ h.DataLabel ++ h.TimeStamp

/-- Write `bs` into the output file at the current position (overwriting and
extending as needed) and advance the position: the effect of a buffered
`Write` on the seekable file. -/
def fwrite (sf : File) (bs : List Nat) : File :=
  { sf with
    sink := sf.sink.take sf.pos ++ bs ++ sf.sink.drop (sf.pos + bs.length),
    pos := sf.pos + bs.length }

/-- Model of `writeHeader` (src/stata.go lines 248-252): set
`NumVars = int16(len(fields))` and emit the header bytes. -/
def writeHeader (sf : File) : File :=
  fwrite { sf with header := { sf.header with NumVars := int16ofNat sf.fields.length } }
    (headerBytes { sf.header with NumVars := int16ofNat sf.fields.length })

/-- A sequence of per-field slots of width `w` sized by the header's
`NumVars` (`nvn`): each field's string copied into a zeroed slot, then
all-zero slots for the remaining indices. This is the layout of the
`varList` / `fmtList` / `vlblList` arrays after the fill loop. -/
def padSlots (w : Nat) (nvn : Nat) (items : List GoStr) : List Nat :=
  (items.map (padTrunc w)).flatten ++ List.replicate (w * (nvn - items.length)) 0

/-- The descriptor-table bytes of `writeDescriptors` (src/stata.go lines
254-291). The arrays are sized by `sf.header.NumVars` and filled from
`sf.fields`; a negative `NumVars` makes `make` panic and a field index at or
beyond `NumVars` makes the fill loop panic, both modelled as `Option.none`.
Layout: type codes (1 byte each), names (33-byte slots), the zero sort list
(2·(NumVars+1) bytes), formats (12-byte slots), the never-filled variable
label array (33·NumVars zero bytes), the value-label array filled from
`Field.Label` (81-byte slots), and the 5-byte expansion terminator. -/
def descriptorBytes (sf : File) : Option (List Nat) :=
  if sf.header.NumVars < 0 then Option.none
  else
    let nvn := sf.header.NumVars.toNat
    if nvn < sf.fields.length then Option.none
    else Option.some (
      (sf.fields.map Field.FieldType ++ List.replicate (nvn - sf.fields.length) 0)
      ++ padSlots 33 nvn (sf.fields.map Field.Name)
      ++ List.replicate (2 * (nvn + 1)) 0
      ++ padSlots 12 nvn (sf.fields.map Field.Format)
      ++ List.replicate (33 * nvn) 0
      ++ padSlots 81 nvn (sf.fields.map Field.Label)
      ++ List.replicate 5 0)

/-- Model of `writeDescriptors` as a state transformer: emit the descriptor
bytes at the current position. -/
def writeDescriptors (sf : File) : Option File :=
  (descriptorBytes sf).map (fwrite sf)

/-- Model of `BeginWrite` (src/stata.go lines 340-362): create/truncate the
output file, write the header and the descriptor tables, and allocate the
zeroed record buffer. -/
def BeginWrite (sf : File) : Option File :=
  (writeDescriptors (writeHeader { sf with sink := [], pos := 0 })).map (fun sf₂ =>
    { sf₂ with recBuf := List.replicate sf₂.recordSize 0, offset := 0 })

/-- Model of `EndWrite` (src/stata.go lines 364-379): flush, seek to the
start, rewrite the header (now with the final `NumObs`), flush and close. -/
def EndWrite (sf : File) : File :=
  writeHeader { sf with pos := 0 }

/-- Model of `RecordEnd` (src/stata.go lines 382-390): write the record
buffer to the sink, reset the offset, increment `NumObs`. -/
def RecordEnd (sf : File) : File :=
  let sf' := fwrite sf sf.recBuf
  { sf' with
    offset := 0,
    header := { sf'.header with NumObs := sf'.header.NumObs + 1 } }

/-- The effect of Go `copy(dst[off:], src)` for `off ≤ dst.length`: copy
`min(src.length, dst.length - off)` bytes of `src` over `dst` starting at
`off`; the length of `dst` never changes. -/
def goCopy (dst : List Nat) (off : Nat) (src : List Nat) : List Nat :=
  dst.take off ++ src.take (dst.length - off) ++ dst.drop (off + src.length)

/-- Model of `AppendStringN` (src/stata.go lines 418-422): copy all of `v`
into the record buffer at the current offset (bounded only by the buffer's
end, not by `n`), then advance the offset by `n`. -/
def AppendStringN (sf : File) (v : GoStr) (n : Nat) : File :=
  { sf with recBuf := goCopy sf.recBuf sf.offset v, offset := sf.offset + n }

/-! ### Bulk record writing (`writeData`) -/

/-- One step of the inner field loop of `writeData` (src/stata.go lines
295-338) at row `i`: encode the field's value into the record buffer `bs` at
`off` and advance `off` by the type's width. Index and type-assertion panics
of the Go code are modelled as errors; a type code outside the five numeric
sentinels takes the `default` branch and fails with `unsupportedFieldType`. -/
def writeFieldAt (f : Field) (i : Nat) (bs : List Nat) (off : Nat) :
    Except GoErr (List Nat × Nat) :=
  if f.FieldType = StataByteId then
    match f.data with
    | .bytes xs =>
      match xs[i]? with
      | Option.some v =>
        if off < bs.length then
          .ok (bs.set off (v % 256).toNat, off + 1)
        else .error .panicIndexOutOfRange
      | Option.none => .error .panicIndexOutOfRange
    | _ => .error .panicTypeAssertion
  else if f.FieldType = StataIntId then
    match f.data with
    | .ints xs =>
      match xs[i]? with
      | Option.some v =>
        if off + 1 < bs.length then
          .ok ((bs.set off ((v % 65536).toNat % 256)).set (off + 1)
                ((v % 65536).toNat / 256), off + 2)
        else .error .panicIndexOutOfRange
      | Option.none => .error .panicIndexOutOfRange
    | _ => .error .panicTypeAssertion
  else if f.FieldType = StataLongId then
    match f.data with
    | .longs xs =>
      match xs[i]? with
      | Option.some v =>
        .ok (goCopy bs off (leBytes 4 (v % 4294967296).toNat), off + 4)
      | Option.none => .error .panicIndexOutOfRange
    | _ => .error .panicTypeAssertion
  else if f.FieldType = StataFloatId then
    match f.data with
    | .floats xs =>
      match xs[i]? with
      | Option.some bits => .ok (goCopy bs off (leBytes 4 bits), off + 4)
      | Option.none => .error .panicIndexOutOfRange
    | _ => .error .panicTypeAssertion
  else if f.FieldType = StataDoubleId then
    match f.data with
    | .doubles xs =>
      match xs[i]? with
      | Option.some bits => .ok (goCopy bs off (leBytes 8 bits), off + 8)
      | Option.none => .error .panicIndexOutOfRange
    | _ => .error .panicTypeAssertion
  else .error (.unsupportedFieldType f.FieldType f.Name)

/-- The inner field loop of `writeData` over a whole row. -/
def writeRowAux (i : Nat) (bs : List Nat) (off : Nat) :
    List Field → Except GoErr (List Nat)
  | [] => .ok bs
  | f :: rest =>
    match writeFieldAt f i bs off with
    | .error e => .error e
    | .ok (bs', off') => writeRowAux i bs' off' rest

/-- The outer row loop of `writeData`: rows `start, start+1, ...` for `fuel`
iterations, reusing the record buffer `bs` across rows, appending each
completed row's buffer to the written output. Returns the bytes actually
written and the error, if any (an error stops the loop before the failing
row's bytes are written, as in Go). -/
def writeDataLoop (fields : List Field) (start fuel : Nat) (bs written : List Nat) :
    List Nat × Option GoErr :=
  match fuel with
  | 0 => (written, Option.none)
  | fuel + 1 =>
    match writeRowAux start bs 0 fields with
    | .error e => (written, Option.some e)
    | .ok bs' => writeDataLoop fields (start + 1) fuel bs' (written ++ bs')

/-- Model of `writeData` (src/stata.go lines 295-338): an immediate
(error-free) return when `NumObs == 0`, the `No fields` error when the field
list is empty, else the row loop over `NumObs` rows starting from a zeroed
record buffer. Returns the record bytes written to the sink together with
the error, if any. -/
def writeData (sf : File) : List Nat × Option GoErr :=
  if sf.header.NumObs = 0 then ([], Option.none)
  else if sf.fields.length = 0 then ([], Option.some .noFields)
  else writeDataLoop sf.fields 0 sf.header.NumObs.toNat
        (List.replicate sf.recordSize 0) []

/-! ### General lemmas about the byte-level helpers -/

instance {ε α : Type} [DecidableEq ε] [DecidableEq α] : DecidableEq (Except ε α) := fun a b =>
  match a, b with
  | .error e, .error e' =>
    if h : e = e' then .isTrue (by rw [h]) else .isFalse (by simp [h])
  | .error _, .ok _ => .isFalse (by simp)
  | .ok _, .error _ => .isFalse (by simp)
  | .ok a, .ok a' =>
    if h : a = a' then .isTrue (by rw [h]) else .isFalse (by simp [h])

theorem leBytes_length (w v : Nat) : (leBytes w v).length = w := by
  induction w generalizing v with
  | zero => rfl
  | succ w ih => simp [leBytes, ih]

theorem goCopy_length (dst src : List Nat) (off : Nat) :
    (goCopy dst off src).length = dst.length := by
  simp only [goCopy, List.length_append, List.length_take, List.length_drop]
  omega

theorem goCopy_getElem? (dst src : List Nat) (off k : Nat) :
    (goCopy dst off src)[k]? =
      if k < off then dst[k]?
      else if k < off + min src.length (dst.length - off) then src[k - off]?
      else dst[k]? := by
  unfold goCopy
  rcases Nat.lt_or_ge k off with hk | hk
  · rcases Nat.lt_or_ge k dst.length with hkd | hkd
    · rw [List.getElem?_append_left
          (by simp only [List.length_append, List.length_take]; omega),
        List.getElem?_append_left
          (by simp only [List.length_take]; omega),
        List.getElem?_take_of_lt hk, if_pos hk]
    · -- k beyond the buffer: both sides are none
      have h1 : dst[k]? = (Option.none : Option Nat) :=
        List.getElem?_eq_none (by omega)
      rw [if_pos hk, h1, List.getElem?_eq_none]
      simp only [List.length_append, List.length_take, List.length_drop]
      omega
  · rcases Nat.lt_or_ge k (off + min src.length (dst.length - off)) with hk2 | hk2
    · -- inside the copied region; here off ≤ dst.length
      have hoff : off ≤ dst.length := by omega
      rw [List.getElem?_append_left
          (by simp only [List.length_append, List.length_take]; omega),
        List.getElem?_append_right
          (by simp only [List.length_take]; omega),
        List.length_take, Nat.min_eq_left hoff,
        List.getElem?_take_of_lt (by omega),
        if_neg (by omega), if_pos hk2]
    · -- past the copied region
      rw [if_neg (by omega), if_neg (by omega),
        List.getElem?_append_right
          (by simp only [List.length_append, List.length_take]; omega),
        List.getElem?_drop]
      simp only [List.length_append, List.length_take]
      rcases Nat.lt_or_ge off dst.length with hoff | hoff
      · rcases le_or_lt src.length (dst.length - off) with hs | hs
        · congr 1; omega
        · rw [List.getElem?_eq_none (by omega), List.getElem?_eq_none (by omega)]
      · rw [List.getElem?_eq_none (by omega), List.getElem?_eq_none (by omega)]

/-! ### Claim C1 -/

/-- C1, counterexample: a dataset with zero fields and observation count 0
makes `writeData` return successfully (no `NoFields` error), because the
`NumObs == 0` early return precedes the zero-fields check — contradicting
the claim that the error is returned regardless of the observation count. -/
theorem writeData_zero_fields_zero_obs_succeeds :
    writeData (NewFile []) = ([], Option.none) := rfl

/-- C1, amended: for a dataset with zero fields, `writeData` never writes
any record bytes, and it returns the `NoFields` error exactly when the
observation count is nonzero (with `NumObs = 0` it returns success). -/
theorem writeData_no_fields_error_iff (sf : File) (h : sf.fields = []) :
    (writeData sf).1 = [] ∧
      ((writeData sf).2 = Option.some GoErr.noFields ↔ sf.header.NumObs ≠ 0) := by
  unfold writeData
  rcases eq_or_ne sf.header.NumObs 0 with h0 | h0 <;> simp [h, h0]

/-- Witness for `writeData_no_fields_error_iff` at a concrete zero-field
dataset with five observations. -/
theorem writeData_no_fields_error_iff_witness :
    (writeData { NewFile [] with header := { NewHeader [] with NumObs := 5 } }).1 = []
    ∧ ((writeData { NewFile [] with header := { NewHeader [] with NumObs := 5 } }).2
          = Option.some GoErr.noFields
        ↔ ({ NewFile [] with
              header := { NewHeader [] with NumObs := 5 } } : File).header.NumObs ≠ 0) :=
  writeData_no_fields_error_iff
    { NewFile [] with header := { NewHeader [] with NumObs := 5 } } rfl

/-! ### Claim C2 -/

/-- C2: `AddFieldMeta` does NOT abort on the invalid type codes 245 and 0:
its guard `typ < 1 && typ > 244` is an unsatisfiable conjunction, so the
panic is dead code and both codes are stored as fields (245 even contributes
245 bytes to the record size as if it were a string width), although neither
is a valid type code. This contradicts the function's own documentation
table of valid codes; the code is in error (`&&` where `||` was intended). -/
theorem addFieldMeta_stores_invalid_codes :
    ((AddFieldMeta (NewFile []) [120] [121] 245).map
        (fun sf => (sf.fields.map Field.FieldType, sf.recordSize))
      = Option.some ([245], 245))
    ∧ ((AddFieldMeta (NewFile []) [120] [121] 0).map
        (fun sf => (sf.fields.map Field.FieldType, sf.recordSize))
      = Option.some ([0], 0))
    ∧ ¬ validTypeCode 245 ∧ ¬ validTypeCode 0
    ∧ (∀ typ : Nat, ¬ (typ < 1 ∧ typ > 244)) := by
  refine ⟨by decide, by decide, by decide, by decide, ?_⟩
  intro typ h
  omega

/-! ### Claim C10 -/

/-- C10: `AppendStringN sf v n` advances the offset by exactly `n`, but
copies ALL of `v` into the record buffer starting at the current offset,
bounded only by the buffer's end: every byte `v[j]` with `offset + j` in
range lands in the buffer, including positions `j ≥ n` that belong to
subsequent fields. Bytes before the offset are untouched, the buffer length
is unchanged, and when `v.length ≤ n` every position at or beyond
`offset + n` is untouched, so at most `n` bytes of the record are written. -/
theorem appendStringN_copies_whole_string (sf : File) (v : GoStr) (n : Nat) :
    (AppendStringN sf v n).offset = sf.offset + n
    ∧ ((AppendStringN sf v n).recBuf).length = sf.recBuf.length
    ∧ (∀ j, j < v.length → sf.offset + j < sf.recBuf.length →
        ((AppendStringN sf v n).recBuf)[sf.offset + j]? = v[j]?)
    ∧ (∀ j, j < sf.offset →
        ((AppendStringN sf v n).recBuf)[j]? = sf.recBuf[j]?)
    ∧ (v.length ≤ n → ∀ j, n ≤ j →
        ((AppendStringN sf v n).recBuf)[sf.offset + j]? = sf.recBuf[sf.offset + j]?) := by
  refine ⟨rfl, goCopy_length _ _ _, ?_, ?_, ?_⟩
  · intro j hj hrange
    show (goCopy sf.recBuf sf.offset v)[sf.offset + j]? = v[j]?
    rw [goCopy_getElem?]
    rw [if_neg (by omega), if_pos (by omega)]
    congr 1
    omega
  · intro j hj
    show (goCopy sf.recBuf sf.offset v)[j]? = sf.recBuf[j]?
    rw [goCopy_getElem?, if_pos hj]
  · intro hvn j hj
    show (goCopy sf.recBuf sf.offset v)[sf.offset + j]? = sf.recBuf[sf.offset + j]?
    rw [goCopy_getElem?]
    rw [if_neg (by omega), if_neg (by omega)]

/-- Witness for `appendStringN_copies_whole_string`: a 4-byte record buffer
at offset 1, a 2-byte string with `n = 2`. -/
theorem appendStringN_copies_whole_string_witness :
    (AppendStringN { header := NewHeader [], recBuf := [9, 9, 9, 9], offset := 1 }
        [55, 66] 2).offset = 1 + 2
    ∧ ((AppendStringN { header := NewHeader [], recBuf := [9, 9, 9, 9], offset := 1 }
        [55, 66] 2).recBuf)[1 + 0]? = ([55, 66] : GoStr)[0]? := by
  have h := appendStringN_copies_whole_string
    { header := NewHeader [], recBuf := [9, 9, 9, 9], offset := 1 } [55, 66] 2
  exact ⟨h.1, h.2.2.1 0 (by decide) (by decide)⟩

/-! ### Claim C4 -/

theorem fieldWidth_of_le_244 (n : Nat) (h1 : 1 ≤ n) (h2 : n ≤ 244) :
    fieldWidth n = n := by
  unfold fieldWidth StataByteId StataIntId StataLongId StataFloatId StataDoubleId
  rw [if_neg (by omega), if_neg (by omega), if_neg (by omega),
    if_neg (by omega), if_neg (by omega)]

/-- C4: the type-string converter. For every numeral `cs` denoting `N` with
1 ≤ N ≤ 244, `convertTyp` on the string "str"+cs returns the code `N`,
whose byte width is `N`; for a numeral outside that range, and for a
non-numeral suffix, it returns an error; and any string that neither starts
with "str" nor is one of the five kind names byte/int/long/float/double is
rejected with an error. -/
theorem convertTyp_str_width (cs : GoStr) (n : Nat)
    (ha : goAtoi cs = Option.some ((n : Nat) : Int)) (h1 : 1 ≤ n) (h2 : n ≤ 244) :
    (convertTyp (strTypLit ++ cs) = .ok n ∧ fieldWidth n = n)
    ∧ (∀ (ds : GoStr) (z : Int), goAtoi ds = Option.some z → (z < 1 ∨ z > 244) →
        convertTyp (strTypLit ++ ds) = .error (.stringTypeOutOfRange (strTypLit ++ ds)))
    ∧ (∀ ds : GoStr, goAtoi ds = Option.none →
        convertTyp (strTypLit ++ ds) = .error (.invalidStringType (strTypLit ++ ds)))
    ∧ (∀ s : GoStr, s.take 3 ≠ strTypLit →
        s ≠ byteLit → s ≠ intLit → s ≠ longLit → s ≠ floatLit → s ≠ doubleLit →
        convertTyp s = .error (.unknownType s)) := by
  have htake : ∀ ds : GoStr, (strTypLit ++ ds).take 3 = strTypLit := fun ds =>
    List.take_left' rfl
  have hdrop : ∀ ds : GoStr, (strTypLit ++ ds).drop 3 = ds := fun ds =>
    List.drop_left' rfl
  refine ⟨⟨?_, fieldWidth_of_le_244 n h1 h2⟩, ?_, ?_, ?_⟩
  · unfold convertTyp
    rw [if_pos (htake cs), hdrop, ha]
    have hn : ¬(((n : Nat) : Int) < 1 ∨ ((n : Nat) : Int) > 244) := by
      push_neg
      exact ⟨by exact_mod_cast h1, by exact_mod_cast h2⟩
    simp [hn]
    omega
  · intro ds z hz hrange
    unfold convertTyp
    rw [if_pos (htake ds), hdrop, hz]
    simp [hrange]
  · intro ds hds
    unfold convertTyp
    rw [if_pos (htake ds), hdrop, hds]
  · intro s hs h1 h2 h3 h4 h5
    unfold convertTyp
    rw [if_neg hs, if_neg h1, if_neg h2, if_neg h3, if_neg h4, if_neg h5]

/-- Witness for `convertTyp_str_width`: the numeral "9" gives code 9 with
width 9; "str245" and "strx" are rejected, as is the unknown kind "x". -/
theorem convertTyp_str_width_witness :
    (convertTyp (strTypLit ++ [57]) = .ok 9 ∧ fieldWidth 9 = 9)
    ∧ convertTyp (strTypLit ++ [50, 52, 53])
        = .error (.stringTypeOutOfRange (strTypLit ++ [50, 52, 53]))
    ∧ convertTyp (strTypLit ++ [120])
        = .error (.invalidStringType (strTypLit ++ [120]))
    ∧ convertTyp [120] = .error (.unknownType [120]) := by
  have h := convertTyp_str_width [57] 9 (by decide) (by decide) (by decide)
  exact ⟨h.1,
    h.2.1 [50, 52, 53] 245 (by decide) (by decide),
    h.2.2.1 [120] (by decide),
    h.2.2.2 [120] (by decide) (by decide) (by decide) (by decide) (by decide) (by decide)⟩

/-! ### Claim C5 -/

/-- A field-adding operation: either `AddFieldMeta` or `AddField`. -/
inductive AddOp where
  | meta (name label : GoStr) (typ : Nat)
  | slice (name label : GoStr) (s : GoSlice)
  deriving DecidableEq, Repr

/-- Apply one field-adding operation. -/
def applyOp (sf : File) : AddOp → Option File
  | .meta n l t => AddFieldMeta sf n l t
  | .slice n l s => Option.some (AddField sf n l s)

/-- Apply a sequence of field-adding operations. -/
def applyOps (sf : File) : List AddOp → Option File
  | [] => Option.some sf
  | op :: ops => (applyOp sf op).bind (fun sf' => applyOps sf' ops)

theorem calcRecordSize_eq_sum (fs : List Field) :
    calcRecordSize fs = (fs.map (fun f => fieldWidth f.FieldType)).sum := by
  suffices h : ∀ a, fs.foldl (fun acc f => acc + fieldWidth f.FieldType) a
      = a + (fs.map (fun f => fieldWidth f.FieldType)).sum by
    simpa [calcRecordSize] using h 0
  induction fs with
  | nil => simp
  | cons f fs ih => intro a; simp [List.foldl_cons, ih, Nat.add_assoc]

theorem calcRecordSize_append (fs : List Field) (f : Field) :
    calcRecordSize (fs ++ [f]) = calcRecordSize fs + fieldWidth f.FieldType := by
  simp [calcRecordSize_eq_sum]

/-- The record-size invariant is preserved by every successful `applyOp`. -/
theorem applyOp_recordSize (sf sf' : File) (op : AddOp)
    (hop : applyOp sf op = Option.some sf')
    (hinv : sf.recordSize = calcRecordSize sf.fields) :
    sf'.recordSize = calcRecordSize sf'.fields := by
  cases op with
  | meta n l t =>
    simp only [applyOp, AddFieldMeta] at hop
    by_cases h5 : t = StataByteId ∨ t = StataIntId ∨ t = StataLongId ∨
        t = StataFloatId ∨ t = StataDoubleId
    · rw [if_pos h5] at hop
      cases hop
      simp only [calcRecordSize_append, hinv]
    · rw [if_neg h5, if_neg (by omega)] at hop
      cases hop
      have hw : fieldWidth t = t := by
        unfold fieldWidth
        unfold StataByteId StataIntId StataLongId StataFloatId StataDoubleId at h5 ⊢
        push_neg at h5
        rw [if_neg h5.1, if_neg h5.2.1, if_neg h5.2.2.1,
          if_neg h5.2.2.2.1, if_neg h5.2.2.2.2]
      simp only [calcRecordSize_append, hinv, hw]
  | slice n l s =>
    simp only [applyOp, Option.some.injEq] at hop
    cases hop
    have hw : s.inc = fieldWidth s.typId := by
      cases s <;> rfl
    simp only [AddField, calcRecordSize_append, hinv, hw]

/-- The record-size invariant is preserved by every successful `applyOps`. -/
theorem applyOps_recordSize (ops : List AddOp) :
    ∀ sf sf' : File, applyOps sf ops = Option.some sf' →
      sf.recordSize = calcRecordSize sf.fields →
      sf'.recordSize = calcRecordSize sf'.fields := by
  induction ops with
  | nil => intro sf sf' h hinv; cases h; exact hinv
  | cons op ops ih =>
    intro sf sf' h hinv
    unfold applyOps at h
    cases hop : applyOp sf op with
    | none => rw [hop] at h; cases h
    | some sf₁ =>
      rw [hop] at h
      exact ih sf₁ sf' h (applyOp_recordSize sf sf₁ op hop hinv)

/-- C5: for every dataset built from `NewFile` by any sequence of
`AddField` / `AddFieldMeta` calls, the incrementally accumulated
`recordSize` equals `calcRecordSize` of the field list, which equals the sum
of the fields' byte widths; and the per-kind byte widths are exactly
1, 2, 4, 4, 8 for byte/int/long/float/double and `N` for a string code
`N ∈ [1, 244]`. -/
theorem recordSize_sums_widths :
    (∀ (now : GoStr) (ops : List AddOp) (sf : File),
        applyOps (NewFile now) ops = Option.some sf →
        sf.recordSize = (sf.fields.map (fun f => fieldWidth f.FieldType)).sum
        ∧ calcRecordSize sf.fields
            = (sf.fields.map (fun f => fieldWidth f.FieldType)).sum)
    ∧ fieldWidth StataByteId = 1 ∧ fieldWidth StataIntId = 2
    ∧ fieldWidth StataLongId = 4 ∧ fieldWidth StataFloatId = 4
    ∧ fieldWidth StataDoubleId = 8
    ∧ (∀ n, 1 ≤ n → n ≤ 244 → fieldWidth n = n) := by
  refine ⟨?_, rfl, rfl, rfl, rfl, rfl, fieldWidth_of_le_244⟩
  intro now ops sf h
  have := applyOps_recordSize ops (NewFile now) sf h rfl
  rw [calcRecordSize_eq_sum] at this
  exact ⟨this, calcRecordSize_eq_sum sf.fields⟩

/-- A concrete operation sequence for the C5 witness: an int column of two
values, then a `str9` field added by metadata. -/
def c5ops : List AddOp := [AddOp.slice [105] [] (.ints [1, 2]), AddOp.meta [115] [] 9]

/-- Witness for `recordSize_sums_widths` on `c5ops`: record size 2 + 9. -/
theorem recordSize_sums_widths_witness :
    ((applyOps (NewFile []) c5ops).getD (NewFile [])).recordSize
      = (((applyOps (NewFile []) c5ops).getD (NewFile [])).fields.map
          (fun f => fieldWidth f.FieldType)).sum
    ∧ fieldWidth 9 = 9 :=
  ⟨(recordSize_sums_widths.1 [] c5ops _ rfl).1,
    recordSize_sums_widths.2.2.2.2.2.2 9 (by decide) (by decide)⟩

/-! ### Claim C8 -/

theorem extractLoop_error_of_mem (attrs : List Attr) (a : Attr) (e : GoErr)
    (ha : a ∈ attrs) (he : extractOneField a = .error e) :
    ∃ e', extractLoop attrs = .error e' := by
  induction attrs with
  | nil => cases ha
  | cons b attrs ih =>
    unfold extractLoop
    cases hb : extractOneField b with
    | error e0 => exact ⟨e0, rfl⟩
    | ok fld =>
      rcases List.mem_cons.mp ha with rfl | ha'
      · rw [hb] at he; cases he
      · rcases ih ha' with ⟨e', he'⟩
        exact ⟨e', by rw [he']⟩

/-- C8: extraction defaulting. With no `name` tag the extracted field name
is the lowercased attribute name (ASCII attribute names, as all Go
identifiers here are); with no `label` tag the label equals the resolved
name; an `int8` attribute with no `typ` tag is inferred as `byte` (code
251); and any attribute list containing a text attribute with no `typ` tag
makes `ExtractFields` fail with an error. -/
theorem extractFields_defaulting :
    (∀ (a : Attr) (fld : Field), tagGet a.tag nameKey = [] → isAsciiStr a.name →
        extractOneField a = .ok fld → fld.Name = toLowerAscii a.name)
    ∧ (∀ (a : Attr) (fld : Field), tagGet a.tag labelKey = [] →
        extractOneField a = .ok fld → fld.Label = fld.Name)
    ∧ (∀ a : Attr, a.kind = .int8 →
        a.tag.find? (fun p => p.1 = typKey) = Option.none →
        (extractOneField a).toOption.map Field.FieldType = Option.some StataByteId)
    ∧ (∀ (a : Attr) (attrs : List Attr), a ∈ attrs → a.kind = .text →
        a.tag.find? (fun p => p.1 = typKey) = Option.none →
        ∃ e, ExtractFields attrs = .error e) := by
  refine ⟨?_, ?_, ?_, ?_⟩
  · intro a fld hname hascii h
    simp only [extractOneField, hname] at h
    split at h
    · cases h
    · split at h
      · cases h
      · simp only [Except.ok.injEq] at h
        subst h
        simp
  · intro a fld hlabel h
    simp only [extractOneField, hlabel] at h
    split at h
    · cases h
    · split at h
      · cases h
      · simp only [Except.ok.injEq] at h
        subst h
        simp
  · intro a hkind hfind
    have hb : convertTyp byteLit = .ok 251 := by decide
    simp [extractOneField, hfind, hkind, goTypeToStataType, hb, Except.toOption,
      StataByteId]
  · intro a attrs ha hkind hfind
    have he : extractOneField a = .error (.fieldErr a.name .stringNeedsTyp) := by
      simp [extractOneField, hfind, hkind, goTypeToStataType]
    rcases extractLoop_error_of_mem attrs a _ ha he with ⟨e', he'⟩
    refine ⟨e', ?_⟩
    unfold ExtractFields
    rw [he']

/-- An int8 attribute with Go name "Age" and no tag. -/
def ageAttr : Attr := { name := [65, 103, 101], kind := .int8, tag := [] }

/-- A text attribute with Go name "S" and no tag. -/
def textAttr : Attr := { name := [83], kind := .text, tag := [] }

/-- Witness for `extractFields_defaulting`: the attribute "Age" (int8, no
tags) extracts with name "age", label "age" and type code 251, and a
tagless text attribute makes extraction fail. -/
theorem extractFields_defaulting_witness :
    (extractOneField ageAttr).toOption.map Field.FieldType = Option.some StataByteId
    ∧ (∃ e, ExtractFields [textAttr] = .error e) :=
  ⟨extractFields_defaulting.2.2.1 ageAttr rfl rfl,
   extractFields_defaulting.2.2.2 textAttr [textAttr] (by simp) rfl rfl⟩

/-! ### Claim C6 -/

/-- C6, counterexample: `NewFileFromStruct` on a one-attribute struct yields
a dataset with one field whose header still has `NumVars = 0` — the
constructor copies the extracted fields but never updates the header count,
so the claimed invariant fails right after this creation operation. -/
theorem newFileFromStruct_numVars_zero :
    (NewFileFromStruct [] [ageAttr]).map
      (fun sf => (sf.header.NumVars, sf.fields.length)) = .ok (0, 1) := by
  rfl

/-- C6, amended: `NumVars` equals the field count for `NewFile`, the
equality is preserved by `AddField` and `AddFieldMeta`, and `writeHeader`
re-establishes it (for fewer than 2^15 fields) at the moment the header is
emitted; but `NewFileFromStruct` violates it, leaving `NumVars = 0`
whatever the extracted field count, until `writeHeader` runs. -/
theorem numVars_tracks_field_count :
    (∀ now : GoStr, (NewFile now).header.NumVars = ((NewFile now).fields.length : Int))
    ∧ (∀ (sf : File) (n l : GoStr) (s : GoSlice),
        sf.header.NumVars = (sf.fields.length : Int) →
        (AddField sf n l s).header.NumVars = ((AddField sf n l s).fields.length : Int))
    ∧ (∀ (sf sf' : File) (n l : GoStr) (t : Nat),
        AddFieldMeta sf n l t = Option.some sf' →
        sf.header.NumVars = (sf.fields.length : Int) →
        sf'.header.NumVars = (sf'.fields.length : Int))
    ∧ (∀ sf : File, sf.fields.length ≤ 32767 →
        (writeHeader sf).header.NumVars = ((writeHeader sf).fields.length : Int))
    ∧ (∀ (now : GoStr) (attrs : List Attr) (sf : File),
        NewFileFromStruct now attrs = .ok sf → sf.header.NumVars = 0) := by
  refine ⟨?_, ?_, ?_, ?_, ?_⟩
  · intro now; rfl
  · intro sf n l s hinv
    simp only [AddField, List.length_append, List.length_cons, List.length_nil]
    rw [hinv]
    push_cast
    ring
  · intro sf sf' n l t hop hinv
    simp only [AddFieldMeta] at hop
    split at hop
    · simp only [Option.some.injEq] at hop
      subst hop
      simp only [List.length_append, List.length_cons, List.length_nil]
      rw [hinv]; push_cast; ring
    · split at hop
      · cases hop
      · simp only [Option.some.injEq] at hop
        subst hop
        simp only [List.length_append, List.length_cons, List.length_nil]
        rw [hinv]; push_cast; ring
  · intro sf hlen
    show int16ofNat sf.fields.length = (sf.fields.length : Int)
    unfold int16ofNat
    rw [Nat.mod_eq_of_lt (by omega), if_pos (by omega)]
  · intro now attrs sf h
    unfold NewFileFromStruct at h
    split at h
    · cases h
    · simp only [Except.ok.injEq] at h
      subst h
      rfl

/-- Witness for `numVars_tracks_field_count`: one `AddField` on a fresh file
keeps the count in sync, and `writeHeader` on a fresh file re-establishes
it. -/
theorem numVars_tracks_field_count_witness :
    (AddField (NewFile []) [105] [] (.ints [1])).header.NumVars
      = ((AddField (NewFile []) [105] [] (.ints [1])).fields.length : Int)
    ∧ (writeHeader (NewFile [])).header.NumVars
      = ((writeHeader (NewFile [])).fields.length : Int) :=
  ⟨numVars_tracks_field_count.2.1 (NewFile []) [105] [] (.ints [1]) rfl,
   numVars_tracks_field_count.2.2.2.1 (NewFile []) (by decide)⟩

/-! ### Claim C9 -/

theorem padTrunc_length (w : Nat) (s : GoStr) : (padTrunc w s).length = w := by
  simp only [padTrunc, List.length_append, List.length_take, List.length_replicate]
  omega

theorem sum_map_padTrunc_length (w : Nat) (items : List GoStr) :
    (items.map (List.length ∘ padTrunc w)).sum = w * items.length := by
  induction items with
  | nil => simp
  | cons s items ih =>
    simp only [List.map_cons, List.sum_cons, ih, Function.comp_apply,
      padTrunc_length, List.length_cons]
    ring

theorem padSlots_length (w nvn : Nat) (items : List GoStr)
    (h : items.length ≤ nvn) : (padSlots w nvn items).length = w * nvn := by
  simp only [padSlots, List.length_append, List.length_flatten, List.map_map,
    List.length_replicate]
  rw [sum_map_padTrunc_length]
  calc w * items.length + w * (nvn - items.length)
      = w * (items.length + (nvn - items.length)) := (Nat.left_distrib _ _ _).symm
    _ = w * nvn := by rw [Nat.add_sub_cancel' h]

theorem headerBytes_length (h : Header) (hdl : h.DataLabel.length = 81)
    (hts : h.TimeStamp.length = 18) : (headerBytes h).length = 109 := by
  simp [headerBytes, leBytes_length, hdl, hts]

/-- The header value `writeHeader` emits: the dataset's header with
`NumVars` set to `int16(len(fields))`. -/
def headerFor (sf : File) : Header :=
  { sf.header with NumVars := int16ofNat sf.fields.length }

/-- The descriptor block for a field list whose header count matches it. -/
def descBlock (fs : List Field) : List Nat :=
  fs.map Field.FieldType
  ++ padSlots 33 fs.length (fs.map Field.Name)
  ++ List.replicate (2 * (fs.length + 1)) 0
  ++ padSlots 12 fs.length (fs.map Field.Format)
  ++ List.replicate (33 * fs.length) 0
  ++ padSlots 81 fs.length (fs.map Field.Label)
  ++ List.replicate 5 0

theorem writeHeader_eq (sf : File) :
    writeHeader sf = { sf with
      header := headerFor sf,
      sink := sf.sink.take sf.pos ++ headerBytes (headerFor sf)
        ++ sf.sink.drop (sf.pos + (headerBytes (headerFor sf)).length),
      pos := sf.pos + (headerBytes (headerFor sf)).length } := rfl

theorem descriptorBytes_eq (sf : File)
    (h : sf.header.NumVars = (sf.fields.length : Int)) :
    descriptorBytes sf = Option.some (descBlock sf.fields) := by
  unfold descriptorBytes descBlock
  rw [h]
  rw [if_neg (by omega)]
  simp only [Int.toNat_natCast]
  rw [if_neg (by omega)]
  simp

theorem descBlock_length (fs : List Field) :
    (descBlock fs).length = 160 * fs.length + 2 * (fs.length + 1) + 5 := by
  unfold descBlock
  simp only [List.length_append, List.length_map, List.length_replicate,
    padSlots_length 33 fs.length (fs.map Field.Name) (by simp),
    padSlots_length 12 fs.length (fs.map Field.Format) (by simp),
    padSlots_length 81 fs.length (fs.map Field.Label) (by simp)]
  ring

theorem int16ofNat_small (n : Nat) (h : n ≤ 32767) : int16ofNat n = (n : Int) := by
  unfold int16ofNat
  rw [Nat.mod_eq_of_lt (by omega), if_pos (by omega)]

/-- `BeginWrite` on a dataset with at most 2^15−1 fields: the sink becomes
header bytes followed by the descriptor block, and the record buffer is
zero-allocated. -/
theorem beginWrite_eq (sf : File) (hlen : sf.fields.length ≤ 32767) :
    BeginWrite sf = Option.some { sf with
      header := headerFor sf,
      recBuf := List.replicate sf.recordSize 0,
      offset := 0,
      sink := headerBytes (headerFor sf) ++ descBlock sf.fields,
      pos := (headerBytes (headerFor sf)).length + (descBlock sf.fields).length } := by
  have hnv : int16ofNat sf.fields.length = (sf.fields.length : Int) :=
    int16ofNat_small _ hlen
  unfold BeginWrite writeDescriptors
  rw [writeHeader_eq]
  rw [descriptorBytes_eq _ (by simp [headerFor, hnv])]
  simp [fwrite, headerFor, List.drop_eq_nil_of_le]

/-- `EndWrite` right after `BeginWrite`: the header is rewritten in place
over its own 109 bytes, leaving the sink unchanged as header bytes followed
by the descriptor block. -/
theorem endWrite_after_begin (sf sf₁ : File) (hlen : sf.fields.length ≤ 32767)
    (hBW : BeginWrite sf = Option.some sf₁) :
    EndWrite sf₁ = { sf with
      header := headerFor sf,
      recBuf := List.replicate sf.recordSize 0,
      offset := 0,
      sink := headerBytes (headerFor sf) ++ descBlock sf.fields,
      pos := (headerBytes (headerFor sf)).length } := by
  rw [beginWrite_eq sf hlen] at hBW
  have h1 : sf₁ = { sf with
      header := headerFor sf,
      recBuf := List.replicate sf.recordSize 0,
      offset := 0,
      sink := headerBytes (headerFor sf) ++ descBlock sf.fields,
      pos := (headerBytes (headerFor sf)).length + (descBlock sf.fields).length } :=
    (Option.some.injEq _ _ ▸ hBW).symm
  subst h1
  unfold EndWrite
  rw [writeHeader_eq]
  simp [fwrite, headerFor, List.drop_left]

/-- C9: `RecordEnd` writes the accumulated record buffer to the sink at the
current position, resets the append offset to zero and increments the
observation counter by one; and `BeginWrite` followed immediately by
`EndWrite` (no records appended) on a dataset with `NumObs = 0` produces a
file whose header has `NumObs = 0` and `NumVars` equal to the declared
field count, and whose descriptor section (starting at byte 109) still
lists all declared fields' type codes, the whole file being exactly
header + descriptor block. -/
theorem recordEnd_and_finalize_zero_obs :
    (∀ sf : File,
        (RecordEnd sf).header.NumObs = sf.header.NumObs + 1
        ∧ (RecordEnd sf).offset = 0
        ∧ (RecordEnd sf).sink
            = sf.sink.take sf.pos ++ sf.recBuf ++ sf.sink.drop (sf.pos + sf.recBuf.length)
        ∧ (RecordEnd sf).pos = sf.pos + sf.recBuf.length)
    ∧ (∀ sf sf₁ : File,
        sf.header.NumObs = 0 → sf.fields.length ≤ 32767 →
        sf.header.DataLabel.length = 81 → sf.header.TimeStamp.length = 18 →
        BeginWrite sf = Option.some sf₁ →
        ((EndWrite sf₁).sink.drop 6).take 4 = [0, 0, 0, 0]
        ∧ ((EndWrite sf₁).sink.drop 4).take 2 = leBytes 2 sf.fields.length
        ∧ ((EndWrite sf₁).sink.drop 109).take sf.fields.length
            = sf.fields.map Field.FieldType
        ∧ (EndWrite sf₁).sink.length
            = 109 + (160 * sf.fields.length + 2 * (sf.fields.length + 1) + 5)
        ∧ (EndWrite sf₁).header.NumObs = 0) := by
  constructor
  · intro sf
    refine ⟨rfl, rfl, rfl, rfl⟩
  · intro sf sf₁ hobs hlen hdl hts hBW
    rw [endWrite_after_begin sf sf₁ hlen hBW]
    have hnv : int16ofNat sf.fields.length = (sf.fields.length : Int) :=
      int16ofNat_small _ hlen
    have hobs2 : (headerFor sf).NumObs = 0 := by simp [headerFor, hobs]
    have hnv2 : ((headerFor sf).NumVars % 65536).toNat = sf.fields.length := by
      have h : (headerFor sf).NumVars = (sf.fields.length : Int) := by
        simp [headerFor, hnv]
      rw [h]
      omega
    have hhdrlen : (headerBytes (headerFor sf)).length = 109 :=
      headerBytes_length _ hdl hts
    have hdrShape : headerBytes (headerFor sf)
        = [(headerFor sf).Version, (headerFor sf).ByteOrder, (headerFor sf).FileType,
            (headerFor sf).UnUsed]
          ++ leBytes 2 ((headerFor sf).NumVars % 65536).toNat
          ++ leBytes 4 ((headerFor sf).NumObs % 4294967296).toNat
          ++ (headerFor sf).DataLabel ++ (headerFor sf).TimeStamp := rfl
    refine ⟨?_, ?_, ?_, ?_, hobs2⟩
    · -- bytes 6..9 are the little-endian NumObs = 0
      show ((headerBytes (headerFor sf) ++ descBlock sf.fields).drop 6).take 4
        = [0, 0, 0, 0]
      rw [hdrShape, hobs2]
      simp [leBytes, List.drop_append_eq_append_drop,
        List.take_append_eq_append_take, List.append_assoc]
    · -- bytes 4..5 are the little-endian NumVars = field count
      show ((headerBytes (headerFor sf) ++ descBlock sf.fields).drop 4).take 2
        = leBytes 2 sf.fields.length
      rw [hdrShape, ← hnv2]
      simp [leBytes, List.drop_append_eq_append_drop,
        List.take_append_eq_append_take, List.append_assoc]
    · -- the descriptor type-code table still lists every declared field
      show ((headerBytes (headerFor sf) ++ descBlock sf.fields).drop 109).take
          sf.fields.length = sf.fields.map Field.FieldType
      rw [List.drop_left' hhdrlen]
      unfold descBlock
      simp only [List.append_assoc]
      rw [List.take_append_of_le_length (by simp),
        List.take_of_length_le (by simp)]
    · -- the file is exactly header plus descriptor block
      show (headerBytes (headerFor sf) ++ descBlock sf.fields).length
        = 109 + (160 * sf.fields.length + 2 * (sf.fields.length + 1) + 5)
      rw [List.length_append, hhdrlen, descBlock_length]

/-- A one-byte-field dataset for the C9 witness. -/
def c9file : File :=
  (AddFieldMeta (NewFile []) [98] [108] StataByteId).getD (NewFile [])

set_option maxRecDepth 8192 in
/-- Witness for `recordEnd_and_finalize_zero_obs`: `c9file`, opened and
immediately finalized, has `NumObs = 0` in the header and its single type
code 251 at byte 109. -/
theorem recordEnd_and_finalize_zero_obs_witness :
    ((EndWrite ((BeginWrite c9file).getD (NewFile []))).sink.drop 6).take 4
      = [0, 0, 0, 0]
    ∧ ((EndWrite ((BeginWrite c9file).getD (NewFile []))).sink.drop 109).take
        c9file.fields.length
      = c9file.fields.map Field.FieldType := by
  have h1 : c9file.header.NumObs = 0 := by decide
  have h2 : c9file.fields.length ≤ 32767 := by decide
  have h3 : c9file.header.DataLabel.length = 81 := by decide
  have h4 : c9file.header.TimeStamp.length = 18 := by decide
  have h5 : BeginWrite c9file = Option.some ((BeginWrite c9file).getD (NewFile [])) := by
    decide
  have hw := recordEnd_and_finalize_zero_obs.2 c9file
    ((BeginWrite c9file).getD (NewFile [])) h1 h2 h3 h4 h5
  exact ⟨hw.1, hw.2.2.1⟩

/-! ### Claim C7 -/

theorem padSlots_eq_flatten (w : Nat) (nvn : Nat) (items : List GoStr)
    (h : items.length = nvn) :
    padSlots w nvn items = (items.map (padTrunc w)).flatten := by
  simp [padSlots, h, Nat.sub_self]

/-- Extracting the `i`-th slot of a concatenation of fixed-width slots
(possibly followed by further bytes): no slot overflows into its
neighbour. -/
theorem flatten_fixed_slots (w : Nat) (ls : List (List Nat)) (rest : List Nat)
    (hw : ∀ x ∈ ls, x.length = w) :
    ∀ (i : Nat) (s : List Nat), ls[i]? = Option.some s →
      ((ls.flatten ++ rest).drop (w * i)).take w = s := by
  induction ls generalizing rest with
  | nil => intro i s hi; simp at hi
  | cons x ls ih =>
    intro i s hi
    have hx : x.length = w := hw x (by simp)
    cases i with
    | zero =>
      simp only [List.getElem?_cons_zero, Option.some.injEq] at hi
      subst hi
      rw [Nat.mul_zero, List.drop_zero, List.flatten_cons, List.append_assoc,
        List.take_append_of_le_length (by omega), List.take_of_length_le (by omega)]
    | succ i =>
      simp only [List.getElem?_cons_succ] at hi
      rw [List.flatten_cons, List.append_assoc]
      have hidx : w * (i + 1) = x.length + w * i := by rw [hx]; ring
      rw [hidx, List.drop_append]
      exact ih _ (fun y hy => hw y (List.mem_cons_of_mem x hy)) i s hi

/-- A file with a single byte field whose label is 40 copies of the byte
0x61 and whose header count matches the field count. -/
def lblFile : File :=
  { header := { NewHeader [] with NumVars := 1 },
    fields := [{ Name := [118], FieldType := StataByteId,
                 Label := List.replicate 40 97, Format := fmt9gLit,
                 data := FieldData.none }],
    recordSize := 1 }

set_option maxRecDepth 4096 in
/-- C7, counterexample: a 40-byte label is NOT truncated to 33 bytes.
In the emitted descriptor tables the per-field label is copied into the
81-byte value-label slot (bytes 83..163 for one variable), so all 40 label
bytes appear there — in particular the byte at offset 83+33 is 0x61, not a
padding zero, contradicting the claim that labels are truncated to a
33-byte slot. (The 33-byte variable-label table itself is left all
zeros.) -/
theorem label_not_truncated_at_33 :
    (descriptorBytes lblFile).map
        (fun bs => ((bs.drop 83).take 40, bs[83 + 33]?))
      = Option.some (List.replicate 40 97, Option.some 97) := by decide

/-- C7, amended: when the descriptor tables are emitted, every name is
truncated/null-padded to its 33-byte slot and every format to its 12-byte
slot, with no overflow into the adjacent slot; the per-variable label,
however, is written into the 81-byte value-label slot (truncated/padded at
81, not 33), and the 33-byte variable-label table is emitted as all
zeros. -/
theorem descriptor_slot_truncation (sf : File)
    (hnv : sf.header.NumVars = (sf.fields.length : Int))
    (bs : List Nat) (hbs : descriptorBytes sf = Option.some bs) :
    (∀ (w : Nat) (s : GoStr), (padTrunc w s).length = w
        ∧ (w ≤ s.length → padTrunc w s = s.take w)
        ∧ (s.length ≤ w → padTrunc w s = s ++ List.replicate (w - s.length) 0))
    ∧ (∀ (i : Nat) (f : Field), sf.fields[i]? = Option.some f →
        (bs.drop (sf.fields.length + 33 * i)).take 33 = padTrunc 33 f.Name
        ∧ (bs.drop (sf.fields.length + 33 * sf.fields.length
              + 2 * (sf.fields.length + 1) + 12 * i)).take 12 = padTrunc 12 f.Format
        ∧ (bs.drop (sf.fields.length + 33 * sf.fields.length
              + 2 * (sf.fields.length + 1) + 12 * sf.fields.length
              + 33 * sf.fields.length + 81 * i)).take 81 = padTrunc 81 f.Label)
    ∧ (bs.drop (sf.fields.length + 33 * sf.fields.length + 2 * (sf.fields.length + 1)
          + 12 * sf.fields.length)).take (33 * sf.fields.length)
        = List.replicate (33 * sf.fields.length) 0 := by
  rw [descriptorBytes_eq sf hnv, Option.some.injEq] at hbs
  subst hbs
  have hpt : ∀ (w : Nat) (s : GoStr), (padTrunc w s).length = w
      ∧ (w ≤ s.length → padTrunc w s = s.take w)
      ∧ (s.length ≤ w → padTrunc w s = s ++ List.replicate (w - s.length) 0) := by
    intro w s
    refine ⟨padTrunc_length w s, ?_, ?_⟩
    · intro h
      unfold padTrunc
      rw [Nat.sub_eq_zero_of_le h]
      simp
    · intro h
      unfold padTrunc
      rw [List.take_of_length_le h]
  unfold descBlock
  simp only [List.append_assoc]
  have hTlen : (sf.fields.map Field.FieldType).length = sf.fields.length :=
    List.length_map _ _
  have hNlen : (padSlots 33 sf.fields.length (sf.fields.map Field.Name)).length
      = 33 * sf.fields.length := padSlots_length _ _ _ (by simp)
  have hSlen : (List.replicate (2 * (sf.fields.length + 1)) (0 : Nat)).length
      = 2 * (sf.fields.length + 1) := List.length_replicate _ _
  have hFlen : (padSlots 12 sf.fields.length (sf.fields.map Field.Format)).length
      = 12 * sf.fields.length := padSlots_length _ _ _ (by simp)
  have hLlen : (List.replicate (33 * sf.fields.length) (0 : Nat)).length
      = 33 * sf.fields.length := List.length_replicate _ _
  refine ⟨hpt, ?_, ?_⟩
  · intro i f hif
    refine ⟨?_, ?_, ?_⟩
    · -- the name slot
      have e1 : sf.fields.length + 33 * i
          = (sf.fields.map Field.FieldType).length + 33 * i := by rw [hTlen]
      rw [e1, List.drop_append,
        padSlots_eq_flatten 33 sf.fields.length (sf.fields.map Field.Name) (by simp)]
      exact flatten_fixed_slots 33 _ _
        (by intro x hx; simp only [List.mem_map] at hx
            rcases hx with ⟨s, _, rfl⟩; exact padTrunc_length _ _)
        i _ (by simp [hif])
    · -- the format slot
      have e2 : sf.fields.length + 33 * sf.fields.length + 2 * (sf.fields.length + 1)
            + 12 * i
          = (sf.fields.map Field.FieldType).length
            + ((padSlots 33 sf.fields.length (sf.fields.map Field.Name)).length
            + ((List.replicate (2 * (sf.fields.length + 1)) (0 : Nat)).length
            + 12 * i)) := by
        rw [hTlen, hNlen, hSlen]; ring
      rw [e2, List.drop_append, List.drop_append, List.drop_append,
        padSlots_eq_flatten 12 sf.fields.length (sf.fields.map Field.Format) (by simp)]
      exact flatten_fixed_slots 12 _ _
        (by intro x hx; simp only [List.mem_map] at hx
            rcases hx with ⟨s, _, rfl⟩; exact padTrunc_length _ _)
        i _ (by simp [hif])
    · -- the value-label slot carries the label, 81 bytes wide
      have e4 : sf.fields.length + 33 * sf.fields.length + 2 * (sf.fields.length + 1)
            + 12 * sf.fields.length + 33 * sf.fields.length + 81 * i
          = (sf.fields.map Field.FieldType).length
            + ((padSlots 33 sf.fields.length (sf.fields.map Field.Name)).length
            + ((List.replicate (2 * (sf.fields.length + 1)) (0 : Nat)).length
            + ((padSlots 12 sf.fields.length (sf.fields.map Field.Format)).length
            + ((List.replicate (33 * sf.fields.length) (0 : Nat)).length
            + 81 * i)))) := by
        rw [hTlen, hNlen, hSlen, hFlen, hLlen]; ring
      rw [e4, List.drop_append, List.drop_append, List.drop_append, List.drop_append,
        List.drop_append,
        padSlots_eq_flatten 81 sf.fields.length (sf.fields.map Field.Label) (by simp)]
      exact flatten_fixed_slots 81 _ _
        (by intro x hx; simp only [List.mem_map] at hx
            rcases hx with ⟨s, _, rfl⟩; exact padTrunc_length _ _)
        i _ (by simp [hif])
  · -- the 33-byte variable-label table is all zeros
    have e3 : sf.fields.length + 33 * sf.fields.length + 2 * (sf.fields.length + 1)
          + 12 * sf.fields.length
        = (sf.fields.map Field.FieldType).length
          + ((padSlots 33 sf.fields.length (sf.fields.map Field.Name)).length
          + ((List.replicate (2 * (sf.fields.length + 1)) (0 : Nat)).length
          + ((padSlots 12 sf.fields.length (sf.fields.map Field.Format)).length
          + 0))) := by
      rw [hTlen, hNlen, hSlen, hFlen]; ring
    rw [e3, List.drop_append, List.drop_append, List.drop_append, List.drop_append,
      List.drop_zero,
      List.take_append_of_le_length (by rw [hLlen]),
      List.take_of_length_le (by rw [hLlen])]

set_option maxRecDepth 4096 in
/-- Witness for `descriptor_slot_truncation` at `lblFile` (one field, name
"v", 40-byte label): the name slot at byte 1 is the padded name and the
value-label slot at byte 83 is the 40-byte label padded to 81 bytes. -/
theorem descriptor_slot_truncation_witness :
    (((descriptorBytes lblFile).getD []).drop (lblFile.fields.length + 33 * 0)).take 33
      = padTrunc 33 [118]
    ∧ (((descriptorBytes lblFile).getD []).drop (lblFile.fields.length
          + 33 * lblFile.fields.length + 2 * (lblFile.fields.length + 1)
          + 12 * lblFile.fields.length + 33 * lblFile.fields.length + 81 * 0)).take 81
      = padTrunc 81 (List.replicate 40 97) := by
  have h := descriptor_slot_truncation lblFile (by decide)
    ((descriptorBytes lblFile).getD []) (by decide)
  have h0 := h.2.1 0
    { Name := [118], FieldType := StataByteId, Label := List.replicate 40 97,
      Format := fmt9gLit, data := FieldData.none } (by decide)
  exact ⟨h0.1, h0.2.2⟩

/-! ### Claim C3 -/

/-- The pure per-field encoding at row `i` that `writeData` places into the
record buffer: little-endian two's-complement for the three integer kinds,
the raw IEEE bits little-endian for the two float kinds; `none` for a
missing row, a data/type mismatch, or a type code outside the five numeric
sentinels (all of which make `writeData` fail instead of encoding). -/
def fieldEnc (f : Field) (i : Nat) : Option (List Nat) :=
  if f.FieldType = StataByteId then
    match f.data with
    | .bytes xs => (xs[i]?).map (fun v => [(v % 256).toNat])
    | _ => Option.none
  else if f.FieldType = StataIntId then
    match f.data with
    | .ints xs => (xs[i]?).map (fun v => leBytes 2 (v % 65536).toNat)
    | _ => Option.none
  else if f.FieldType = StataLongId then
    match f.data with
    | .longs xs => (xs[i]?).map (fun v => leBytes 4 (v % 4294967296).toNat)
    | _ => Option.none
  else if f.FieldType = StataFloatId then
    match f.data with
    | .floats xs => (xs[i]?).map (fun bits => leBytes 4 bits)
    | _ => Option.none
  else if f.FieldType = StataDoubleId then
    match f.data with
    | .doubles xs => (xs[i]?).map (fun bits => leBytes 8 bits)
    | _ => Option.none
  else Option.none

theorem fieldEnc_length (f : Field) (i : Nat) (e : List Nat)
    (he : fieldEnc f i = Option.some e) : e.length = fieldWidth f.FieldType := by
  unfold fieldEnc at he
  unfold fieldWidth
  split at he
  case isTrue h1 =>
    rw [if_pos h1]
    split at he <;> try (cases he)
    rename_i xs _
    cases hv : xs[i]? <;> rw [hv] at he <;> cases he
    rfl
  case isFalse h1 =>
    rw [if_neg h1]
    split at he
    case isTrue h2 =>
      rw [if_pos h2]
      split at he <;> try (cases he)
      rename_i xs _
      cases hv : xs[i]? <;> rw [hv] at he <;> cases he
      simp [leBytes_length]
    case isFalse h2 =>
      rw [if_neg h2]
      split at he
      case isTrue h3 =>
        rw [if_pos h3]
        split at he <;> try (cases he)
        rename_i xs _
        cases hv : xs[i]? <;> rw [hv] at he <;> cases he
        simp [leBytes_length]
      case isFalse h3 =>
        rw [if_neg h3]
        split at he
        case isTrue h4 =>
          rw [if_pos h4]
          split at he <;> try (cases he)
          rename_i xs _
          cases hv : xs[i]? <;> rw [hv] at he <;> cases he
          simp [leBytes_length]
        case isFalse h4 =>
          rw [if_neg h4]
          split at he
          case isTrue h5 =>
            rw [if_pos h5]
            split at he <;> try (cases he)
            rename_i xs _
            cases hv : xs[i]? <;> rw [hv] at he <;> cases he
            simp [leBytes_length]
          case isFalse h5 => cases he

theorem goCopy_eq_of_le (dst src : List Nat) (off : Nat)
    (h : off + src.length ≤ dst.length) :
    goCopy dst off src = dst.take off ++ src ++ dst.drop (off + src.length) := by
  unfold goCopy
  rw [List.take_of_length_le (l := src) (by omega)]

theorem set_single_eq (bs : List Nat) (off b : Nat) (h : off < bs.length) :
    bs.set off b = bs.take off ++ [b] ++ bs.drop (off + 1) := by
  rw [List.set_eq_take_append_cons_drop, if_pos h]
  simp

theorem set_pair_eq (bs : List Nat) (off b0 b1 : Nat) (h : off + 1 < bs.length) :
    (bs.set off b0).set (off + 1) b1
      = bs.take off ++ [b0, b1] ++ bs.drop (off + 2) := by
  rw [set_single_eq bs off b0 (by omega)]
  have hlen : (bs.take off ++ [b0]).length = off + 1 := by
    simp only [List.length_append, List.length_take, List.length_cons,
      List.length_nil]
    omega
  rw [List.set_append_right _ _ hlen.le, hlen, Nat.sub_self,
    set_single_eq (bs.drop (off + 1)) 0 b1
      (by simp only [List.length_drop]; omega)]
  simp [List.append_assoc, List.drop_drop]

/-- One field step of the bulk writer, characterised: when the field
encodes to `e` and `e` fits in the buffer at `off`, the step succeeds and
overwrites exactly the bytes `[off, off + e.length)` with `e`. -/
theorem writeFieldAt_of_fieldEnc (f : Field) (i : Nat) (bs : List Nat) (off : Nat)
    (e : List Nat) (he : fieldEnc f i = Option.some e)
    (hfit : off + e.length ≤ bs.length) :
    writeFieldAt f i bs off
      = .ok (bs.take off ++ e ++ bs.drop (off + e.length), off + e.length) := by
  unfold fieldEnc at he
  unfold writeFieldAt
  by_cases h1 : f.FieldType = StataByteId
  · rw [if_pos h1] at he ⊢
    cases hd : f.data <;> simp only [hd] at he <;> try exact Option.noConfusion he
    rename_i xs
    cases hv : xs[i]? <;> simp only [hv, Option.map_none', Option.map_some',
      Option.some.injEq] at he
    · exact absurd he (by simp)
    · rename_i v
      subst he
      simp only [hd, hv]
      simp only [List.length_cons, List.length_nil] at hfit
      rw [if_pos (by omega)]
      rw [set_single_eq bs off _ (by omega)]
      simp
  · rw [if_neg h1] at he ⊢
    by_cases h2 : f.FieldType = StataIntId
    · rw [if_pos h2] at he ⊢
      cases hd : f.data <;> simp only [hd] at he <;> try exact Option.noConfusion he
      rename_i xs
      cases hv : xs[i]? <;> simp only [hv, Option.map_none', Option.map_some',
        Option.some.injEq] at he
      · exact absurd he (by simp)
      · rename_i v
        subst he
        simp only [hd, hv]
        rw [leBytes_length] at hfit
        rw [if_pos (by omega)]
        have hx : (v % 65536).toNat < 65536 := by omega
        rw [set_pair_eq bs off _ _ (by omega)]
        have hb : leBytes 2 (v % 65536).toNat
            = [(v % 65536).toNat % 256, (v % 65536).toNat / 256] := by
          have h256 : (v % 65536).toNat / 256 % 256 = (v % 65536).toNat / 256 :=
            Nat.mod_eq_of_lt (by omega)
          show (v % 65536).toNat % 256 :: (v % 65536).toNat / 256 % 256 :: [] = _
          rw [h256]
        rw [hb]
        simp [leBytes_length]
    · rw [if_neg h2] at he ⊢
      by_cases h3 : f.FieldType = StataLongId
      · rw [if_pos h3] at he ⊢
        cases hd : f.data <;> simp only [hd] at he <;> try exact Option.noConfusion he
        rename_i xs
        cases hv : xs[i]? <;> simp only [hv, Option.map_none', Option.map_some',
          Option.some.injEq] at he
        · exact absurd he (by simp)
        · rename_i v
          subst he
          simp only [hd, hv]
          rw [leBytes_length] at hfit
          rw [goCopy_eq_of_le _ _ _ (by rw [leBytes_length]; omega)]
          simp [leBytes_length]
      · rw [if_neg h3] at he ⊢
        by_cases h4 : f.FieldType = StataFloatId
        · rw [if_pos h4] at he ⊢
          cases hd : f.data <;> simp only [hd] at he <;> try exact Option.noConfusion he
          rename_i xs
          cases hv : xs[i]? <;> simp only [hv, Option.map_none', Option.map_some',
            Option.some.injEq] at he
          · exact absurd he (by simp)
          · rename_i bits
            subst he
            simp only [hd, hv]
            rw [leBytes_length] at hfit
            rw [goCopy_eq_of_le _ _ _ (by rw [leBytes_length]; omega)]
            simp [leBytes_length]
        · rw [if_neg h4] at he ⊢
          by_cases h5 : f.FieldType = StataDoubleId
          · rw [if_pos h5] at he ⊢
            cases hd : f.data <;> simp only [hd] at he <;> try exact Option.noConfusion he
            rename_i xs
            cases hv : xs[i]? <;> simp only [hv, Option.map_none', Option.map_some',
              Option.some.injEq] at he
            · exact absurd he (by simp)
            · rename_i bits
              subst he
              simp only [hd, hv]
              rw [leBytes_length] at hfit
              rw [goCopy_eq_of_le _ _ _ (by rw [leBytes_length]; omega)]
              simp [leBytes_length]
          · rw [if_neg h5] at he
            cases he

theorem calcRecordSize_cons (f : Field) (fs : List Field) :
    calcRecordSize (f :: fs) = fieldWidth f.FieldType + calcRecordSize fs := by
  simp [calcRecordSize_eq_sum]

/-- The list of per-field encodings of one row. -/
def fieldEncs (fields : List Field) (i : Nat) : Option (List (List Nat)) :=
  match fields with
  | [] => Option.some []
  | f :: rest =>
    match fieldEnc f i, fieldEncs rest i with
    | Option.some e, Option.some es => Option.some (e :: es)
    | _, _ => Option.none

theorem fieldEncs_flatten_length (fields : List Field) (i : Nat) :
    ∀ (encs : List (List Nat)), fieldEncs fields i = Option.some encs →
      encs.flatten.length = calcRecordSize fields := by
  induction fields with
  | nil =>
    intro encs h
    cases h
    simp [calcRecordSize]
  | cons f rest ih =>
    intro encs h
    unfold fieldEncs at h
    cases he : fieldEnc f i <;> simp only [he] at h
    · exact Option.noConfusion h
    rename_i e
    cases hr : fieldEncs rest i <;> simp only [hr] at h
    · exact Option.noConfusion h
    rename_i es
    simp only [Option.some.injEq] at h
    subst h
    simp only [List.flatten_cons, List.length_append, calcRecordSize_cons,
      fieldEnc_length f i e he, ih es hr]

theorem fieldEncs_take_sum (fields : List Field) (i : Nat) :
    ∀ (encs : List (List Nat)), fieldEncs fields i = Option.some encs →
      ∀ k : Nat, ((encs.take k).map List.length).sum
        = calcRecordSize (fields.take k) := by
  induction fields with
  | nil =>
    intro encs h k
    cases h
    simp [calcRecordSize]
  | cons f rest ih =>
    intro encs h k
    unfold fieldEncs at h
    cases he : fieldEnc f i <;> simp only [he] at h
    · exact Option.noConfusion h
    rename_i e
    cases hr : fieldEncs rest i <;> simp only [hr] at h
    · exact Option.noConfusion h
    rename_i es
    simp only [Option.some.injEq] at h
    subst h
    cases k with
    | zero => simp [calcRecordSize]
    | succ k =>
      simp only [List.take_succ_cons, List.map_cons, List.sum_cons,
        calcRecordSize_cons, fieldEnc_length f i e he, ih es hr k]

theorem fieldEncs_get (fields : List Field) (i : Nat) :
    ∀ (encs : List (List Nat)), fieldEncs fields i = Option.some encs →
      ∀ (k : Nat) (f : Field) (e : List Nat),
        fields[k]? = Option.some f → encs[k]? = Option.some e →
        fieldEnc f i = Option.some e := by
  induction fields with
  | nil => intro encs h k f e hf he; simp at hf
  | cons f0 rest ih =>
    intro encs h k f e hf he
    unfold fieldEncs at h
    cases he0 : fieldEnc f0 i <;> simp only [he0] at h
    · exact Option.noConfusion h
    rename_i e0
    cases hr : fieldEncs rest i <;> simp only [hr] at h
    · exact Option.noConfusion h
    rename_i es
    simp only [Option.some.injEq] at h
    subst h
    cases k with
    | zero =>
      simp only [List.getElem?_cons_zero, Option.some.injEq] at hf he
      subst hf; subst he
      exact he0
    | succ k =>
      simp only [List.getElem?_cons_succ] at hf he
      exact ih es hr k f e hf he

theorem flatten_drop_take_nth (encs : List (List Nat)) :
    ∀ (k : Nat) (e : List Nat), encs[k]? = Option.some e →
      ((encs.flatten).drop (((encs.take k).map List.length).sum)).take e.length
        = e := by
  induction encs with
  | nil => intro k e h; simp at h
  | cons x encs ih =>
    intro k e h
    cases k with
    | zero =>
      simp only [List.getElem?_cons_zero, Option.some.injEq] at h
      subst h
      simp only [List.take_zero, List.map_nil, List.sum_nil, List.drop_zero,
        List.flatten_cons]
      rw [List.take_append_of_le_length (Nat.le_refl _), List.take_length]
    | succ k =>
      simp only [List.getElem?_cons_succ] at h
      simp only [List.take_succ_cons, List.map_cons, List.sum_cons,
        List.flatten_cons]
      rw [List.drop_append]
      exact ih k e h

/-- The inner field loop over a whole row: given that every field encodes
and the row fits, the loop succeeds and overwrites the byte range
`[off, off + row.length)` with the concatenated field encodings, each field
landing at the running offset after its predecessors. -/
theorem writeRowAux_of_fieldEncs (i : Nat) :
    ∀ (fields : List Field) (encs : List (List Nat)) (bs : List Nat) (off : Nat),
      fieldEncs fields i = Option.some encs →
      off + encs.flatten.length ≤ bs.length →
      writeRowAux i bs off fields
        = .ok (bs.take off ++ encs.flatten ++ bs.drop (off + encs.flatten.length)) := by
  intro fields
  induction fields with
  | nil =>
    intro encs bs off h hfit
    cases h
    simp [writeRowAux]
  | cons f rest ih =>
    intro encs bs off h hfit
    unfold fieldEncs at h
    cases he : fieldEnc f i <;> simp only [he] at h
    · exact Option.noConfusion h
    rename_i e
    cases hr : fieldEncs rest i <;> simp only [hr] at h
    · exact Option.noConfusion h
    rename_i es
    simp only [Option.some.injEq] at h
    subst h
    simp only [List.flatten_cons, List.length_append] at hfit
    unfold writeRowAux
    rw [writeFieldAt_of_fieldEnc f i bs off e he (by omega)]
    have hblen : (bs.take off ++ e ++ bs.drop (off + e.length)).length = bs.length := by
      simp only [List.length_append, List.length_take, List.length_drop]
      omega
    show writeRowAux i (bs.take off ++ e ++ bs.drop (off + e.length))
        (off + e.length) rest = _
    rw [ih es _ (off + e.length) hr (by rw [hblen]; omega)]
    have hTe : (bs.take off ++ e).length = off + e.length := by
      simp only [List.length_append, List.length_take]
      omega
    have hA : (bs.take off ++ e ++ bs.drop (off + e.length)).take (off + e.length)
        = bs.take off ++ e := by
      rw [List.take_append_of_le_length (by rw [hTe]),
        List.take_of_length_le (by rw [hTe])]
    have hB : (bs.take off ++ e ++ bs.drop (off + e.length)).drop
          (off + e.length + es.flatten.length)
        = bs.drop (off + e.length + es.flatten.length) := by
      have hidx : off + e.length + es.flatten.length
          = (bs.take off ++ e).length + es.flatten.length := by rw [hTe]
      rw [hidx, List.drop_append, List.drop_drop, hTe]
    rw [hA, hB]
    simp [List.append_assoc, Nat.add_assoc]

/-- The encodings of all rows `start, start+1, ...` for `fuel` rows. -/
def rowsEnc (fields : List Field) (start fuel : Nat) :
    Option (List (List (List Nat))) :=
  match fuel with
  | 0 => Option.some []
  | fuel + 1 =>
    match fieldEncs fields start, rowsEnc fields (start + 1) fuel with
    | Option.some encs, Option.some rest => Option.some (encs :: rest)
    | _, _ => Option.none

theorem rowsEnc_mem (fields : List Field) :
    ∀ (fuel start : Nat) (encss : List (List (List Nat))),
      rowsEnc fields start fuel = Option.some encss →
      ∀ encs ∈ encss, ∃ i, fieldEncs fields i = Option.some encs := by
  intro fuel
  induction fuel with
  | zero =>
    intro start encss h encs hmem
    cases h
    simp at hmem
  | succ fuel ih =>
    intro start encss h encs hmem
    unfold rowsEnc at h
    cases hrow : fieldEncs fields start <;> simp only [hrow] at h
    · exact Option.noConfusion h
    rename_i encs0
    cases hrest : rowsEnc fields (start + 1) fuel <;> simp only [hrest] at h
    · exact Option.noConfusion h
    rename_i rest
    simp only [Option.some.injEq] at h
    subst h
    rcases List.mem_cons.mp hmem with rfl | hmem'
    · exact ⟨start, hrow⟩
    · exact ih (start + 1) rest hrest encs hmem'

theorem writeDataLoop_of_rowsEnc (fields : List Field) :
    ∀ (fuel start : Nat) (encss : List (List (List Nat))) (bs written : List Nat),
      rowsEnc fields start fuel = Option.some encss →
      bs.length = calcRecordSize fields →
      writeDataLoop fields start fuel bs written
        = (written ++ (encss.map List.flatten).flatten, Option.none) := by
  intro fuel
  induction fuel with
  | zero =>
    intro start encss bs written h hlen
    cases h
    simp [writeDataLoop]
  | succ fuel ih =>
    intro start encss bs written h hlen
    unfold rowsEnc at h
    cases hrow : fieldEncs fields start <;> simp only [hrow] at h
    · exact Option.noConfusion h
    rename_i encs
    cases hrest : rowsEnc fields (start + 1) fuel <;> simp only [hrest] at h
    · exact Option.noConfusion h
    rename_i rest
    simp only [Option.some.injEq] at h
    subst h
    have hfl : encs.flatten.length = calcRecordSize fields :=
      fieldEncs_flatten_length fields start encs hrow
    unfold writeDataLoop
    rw [writeRowAux_of_fieldEncs start fields encs bs 0 hrow (by omega)]
    have hfull : bs.take 0 ++ encs.flatten ++ bs.drop (0 + encs.flatten.length)
        = encs.flatten := by
      rw [List.take_zero, List.nil_append, Nat.zero_add,
        List.drop_eq_nil_of_le (by omega), List.append_nil]
    rw [hfull]
    show writeDataLoop fields (start + 1) fuel encs.flatten (written ++ encs.flatten) = _
    rw [ih (start + 1) rest encs.flatten (written ++ encs.flatten) hrest
      (by rw [hfl])]
    simp [List.append_assoc]

/-- A one-string-field dataset (as `AddFieldMeta` with code 9 builds it)
whose observation count has been set to 1, ready for a bulk write. -/
def c3base : File := (AddFieldMeta (NewFile []) [115] [108] 9).getD (NewFile [])

/-- `c3base` with `NumObs = 1`. -/
def c3file : File :=
  { c3base with header := { c3base.header with NumObs := 1 } }

/-- C3, counterexample: in bulk mode a fixed-length string field (type code
9, i.e. `str9`) is NOT copied verbatim — `writeData` hits its `default`
branch and fails with the `Field type not supported` error, writing no
record bytes. Verbatim string copying exists only in the incremental path
(`AppendStringN` / `AppendBytesN`). -/
theorem writeData_rejects_string_field :
    writeData c3file = ([], Option.some (GoErr.unsupportedFieldType 9 [115])) := by
  decide

/-- C3, amended: in bulk mode `write_records` encodes, for each row and each
field whose type code is one of the FIVE numeric sentinels, that field's
value at a running offset equal to the sum of the preceding fields' byte
widths, and the written output is exactly the concatenation of the per-row
records; a string-typed field is rejected as unsupported rather than
encoded (so the "six writable kinds" are five in bulk mode). -/
theorem writeData_bulk_numeric (sf : File) (encss : List (List (List Nat)))
    (hrows : rowsEnc sf.fields 0 sf.header.NumObs.toNat = Option.some encss)
    (hrec : sf.recordSize = calcRecordSize sf.fields)
    (hne : sf.fields.length ≠ 0) :
    writeData sf = ((encss.map List.flatten).flatten, Option.none)
    ∧ (∀ encs ∈ encss, ∀ (k : Nat) (f : Field) (e : List Nat),
        sf.fields[k]? = Option.some f → encs[k]? = Option.some e →
        ((encs.flatten).drop (calcRecordSize (sf.fields.take k))).take
            (fieldWidth f.FieldType) = e
        ∧ e.length = fieldWidth f.FieldType) := by
  constructor
  · unfold writeData
    by_cases h0 : sf.header.NumObs = 0
    · rw [if_pos h0]
      rw [h0] at hrows
      unfold rowsEnc at hrows
      simp only [Int.toNat_zero] at hrows ⊢
      cases hrows
      rfl
    · rw [if_neg h0, if_neg hne]
      rw [writeDataLoop_of_rowsEnc sf.fields sf.header.NumObs.toNat 0 encss
        (List.replicate sf.recordSize 0) [] hrows
        (by rw [List.length_replicate, hrec])]
      simp
  · intro encs hmem k f e hf he
    rcases rowsEnc_mem sf.fields sf.header.NumObs.toNat 0 encss hrows encs hmem
      with ⟨i, hi⟩
    have hfe : fieldEnc f i = Option.some e :=
      fieldEncs_get sf.fields i encs hi k f e hf he
    have hlen : e.length = fieldWidth f.FieldType := fieldEnc_length f i e hfe
    have hoff : ((encs.take k).map List.length).sum
        = calcRecordSize (sf.fields.take k) :=
      fieldEncs_take_sum sf.fields i encs hi k
    have hslice := flatten_drop_take_nth encs k e he
    rw [hoff, hlen] at hslice
    exact ⟨hslice, hlen⟩

/-- A two-column numeric dataset: a byte column `[1, -1]` and an int column
`[258, -2]`, two observations. -/
def c3num : File :=
  AddField (AddField (NewFile []) [98] [] (.bytes [1, -1])) [105] [] (.ints [258, -2])

/-- Witness for `writeData_bulk_numeric` on `c3num`: the bulk writer emits
exactly the two 3-byte records `[1, 2, 1]` and `[255, 254, 255]` (byte 1,
int 258 little-endian; byte −1, int −2 little-endian two's complement),
and the int field of row 0 sits at running offset 1 with width 2. -/
theorem writeData_bulk_numeric_witness :
    writeData c3num = ([1, 2, 1, 255, 254, 255], Option.none)
    ∧ (([[1], [2, 1]] : List (List Nat)).flatten.drop
          (calcRecordSize (c3num.fields.take 1))).take
        (fieldWidth StataIntId) = [2, 1] := by
  have h := writeData_bulk_numeric c3num [[[1], [2, 1]], [[255], [254, 255]]]
    (by decide) (by decide) (by decide)
  constructor
  · rw [h.1]
    decide
  · have h2 := h.2 [[1], [2, 1]] (by simp) 1
      ((AddField (AddField (NewFile []) [98] [] (.bytes [1, -1])) [105] []
        (.ints [258, -2])).fields.getD 1
        { Name := [], FieldType := 0, Label := [], Format := [],
          data := FieldData.none })
      [2, 1] (by decide) (by decide)
    exact h2.1

end GoStata
